import Mathlib

/-!
Verification development for the pi2 proof-generation pipeline.

The development shallowly embeds the core of the repository:
the pattern algebra, the Kore-to-pattern converter
(`kore_transfer/kore_converter.py`), the execution proof engine and its
simplification visitor (`proof_generation/k/execution_proof_generation.py`),
and the propositional proof layer with its serializer
(`proof_generation/proofs/propositional.py`).

Modules of the repository that are imported by these files but whose
sources are not available (`proof_generation/pattern.py`,
`proof_generation/proof.py`, `proof_generation/proofs/kore_lemmas.py`,
`proof_generation/k/kore_convertion/language_semantics.py`,
`proof_generation/proofs/definedness.py`) are modelled from the design
specification; every such definition carries a doc comment that starts
with `Modelled from the spec:`.
-/

/--
The pattern algebra (the "new format" terms built by the converter and the
proof layer).  The first eight constructors are the primitive pattern
constructors from the design's data model (`Symbol`, `EVar`, `SVar`,
`MetaVar`, binary `Application`, `Implication`, `Exists`, `Mu`).

Modelled from the spec: the remaining constructors are the notation nodes
used by the sources (`KoreRewrites`, `KoreAnd`, `KoreOr`, `KoreTop`,
`KoreDv`, `KoreApplies`, `Cell`, `KoreNestedCells` from the absent
`kore_lemmas.py`, and `And`/`Top` from the absent evolved propositional
module); per the design a notation is kept distinct from its expansion,
so each is a separate node.  The sorts tuple of `KoreApplies` is encoded
as the left-associated application chain of its (always non-empty) sort
list, since the absent notation class fixes no concrete slot layout.
-/
inductive Pattern where
  | symbol (name : String)
  | evar (n : Nat)
  | svar (n : Nat)
  | metavar (n : Nat)
  | app (l r : Pattern)
  | implies (l r : Pattern)
  | ex (v : Nat) (body : Pattern)
  | mu (v : Nat) (body : Pattern)
  | koreRewrites (sort l r : Pattern)
  | koreAnd (sort l r : Pattern)
  | koreOr (sort l r : Pattern)
  | koreTop (sort : Pattern)
  | koreDv (sort value : Pattern)
  | koreApplies (sorts chain : Pattern)
  | cell (label value : Pattern)
  | koreNestedCells (label value : Pattern)
  | andP (l r : Pattern)
  | topP
deriving DecidableEq, Repr

/--
Modelled from the spec: `Pattern.instantiate` (absent `pattern.py`)
substitutes metavariables by their images under the substitution,
simultaneously and in one pass, leaving all other nodes untouched.
-/
def instantiateP (s : List (Nat × Pattern)) : Pattern → Pattern
  | .symbol n => .symbol n
  | .evar n => .evar n
  | .svar n => .svar n
  | .metavar n =>
    match s.lookup n with
    | some v => v
    | none => .metavar n
  | .app l r => .app (instantiateP s l) (instantiateP s r)
  | .implies l r => .implies (instantiateP s l) (instantiateP s r)
  | .ex v body => .ex v (instantiateP s body)
  | .mu v body => .mu v (instantiateP s body)
  | .koreRewrites srt l r =>
    .koreRewrites (instantiateP s srt) (instantiateP s l) (instantiateP s r)
  | .koreAnd srt l r => .koreAnd (instantiateP s srt) (instantiateP s l) (instantiateP s r)
  | .koreOr srt l r => .koreOr (instantiateP s srt) (instantiateP s l) (instantiateP s r)
  | .koreTop srt => .koreTop (instantiateP s srt)
  | .koreDv srt v => .koreDv (instantiateP s srt) (instantiateP s v)
  | .koreApplies srts chain => .koreApplies (instantiateP s srts) (instantiateP s chain)
  | .cell label value => .cell (instantiateP s label) (instantiateP s value)
  | .koreNestedCells label value =>
    .koreNestedCells (instantiateP s label) (instantiateP s value)
  | .andP l r => .andP (instantiateP s l) (instantiateP s r)
  | .topP => .topP

/--
Modelled from the spec: `Pattern.apply_esubst` (absent `pattern.py`)
substitutes one element variable by a plug, respecting the `Exists`
binder (a bound occurrence is shadowed and left untouched).
-/
def apply_esubst (v : Nat) (plug : Pattern) : Pattern → Pattern
  | .symbol n => .symbol n
  | .evar n => if n = v then plug else .evar n
  | .svar n => .svar n
  | .metavar n => .metavar n
  | .app l r => .app (apply_esubst v plug l) (apply_esubst v plug r)
  | .implies l r => .implies (apply_esubst v plug l) (apply_esubst v plug r)
  | .ex b body => if b = v then .ex b body else .ex b (apply_esubst v plug body)
  | .mu b body => .mu b (apply_esubst v plug body)
  | .koreRewrites srt l r =>
    .koreRewrites (apply_esubst v plug srt) (apply_esubst v plug l) (apply_esubst v plug r)
  | .koreAnd srt l r =>
    .koreAnd (apply_esubst v plug srt) (apply_esubst v plug l) (apply_esubst v plug r)
  | .koreOr srt l r =>
    .koreOr (apply_esubst v plug srt) (apply_esubst v plug l) (apply_esubst v plug r)
  | .koreTop srt => .koreTop (apply_esubst v plug srt)
  | .koreDv srt w => .koreDv (apply_esubst v plug srt) (apply_esubst v plug w)
  | .koreApplies srts chain =>
    .koreApplies (apply_esubst v plug srts) (apply_esubst v plug chain)
  | .cell label value => .cell (apply_esubst v plug label) (apply_esubst v plug value)
  | .koreNestedCells label value =>
    .koreNestedCells (apply_esubst v plug label) (apply_esubst v plug value)
  | .andP l r => .andP (apply_esubst v plug l) (apply_esubst v plug r)
  | .topP => .topP

/-- SimplificationVisitor.apply_substitutions: fold `apply_esubst` over the
substitution's entries in order. -/
def apply_substitutions (p : Pattern) (subs : List (Nat × Pattern)) : Pattern :=
  subs.foldl (fun acc entry => apply_esubst entry.1 entry.2 acc) p

/-- True exactly on patterns that contain no metavariable node. -/
def noMV : Pattern → Bool
  | .symbol _ => true
  | .evar _ => true
  | .svar _ => true
  | .metavar _ => false
  | .app l r => noMV l && noMV r
  | .implies l r => noMV l && noMV r
  | .ex _ body => noMV body
  | .mu _ body => noMV body
  | .koreRewrites srt l r => noMV srt && noMV l && noMV r
  | .koreAnd srt l r => noMV srt && noMV l && noMV r
  | .koreOr srt l r => noMV srt && noMV l && noMV r
  | .koreTop srt => noMV srt
  | .koreDv srt v => noMV srt && noMV v
  | .koreApplies srts chain => noMV srts && noMV chain
  | .cell label value => noMV label && noMV value
  | .koreNestedCells label value => noMV label && noMV value
  | .andP l r => noMV l && noMV r
  | .topP => true

theorem instantiateP_noop (s : List (Nat × Pattern)) (p : Pattern) (h : noMV p = true) :
    instantiateP s p = p := by
  induction p with
  | symbol n => rfl
  | evar n => rfl
  | svar n => rfl
  | metavar n => simp [noMV] at h
  | app l r ihl ihr =>
    simp [noMV] at h
    simp [instantiateP, ihl h.1, ihr h.2]
  | implies l r ihl ihr =>
    simp [noMV] at h
    simp [instantiateP, ihl h.1, ihr h.2]
  | ex v body ih =>
    simp [noMV] at h
    simp [instantiateP, ih h]
  | mu v body ih =>
    simp [noMV] at h
    simp [instantiateP, ih h]
  | koreRewrites srt l r ihs ihl ihr =>
    simp [noMV] at h
    simp [instantiateP, ihs h.1.1, ihl h.1.2, ihr h.2]
  | koreAnd srt l r ihs ihl ihr =>
    simp [noMV] at h
    simp [instantiateP, ihs h.1.1, ihl h.1.2, ihr h.2]
  | koreOr srt l r ihs ihl ihr =>
    simp [noMV] at h
    simp [instantiateP, ihs h.1.1, ihl h.1.2, ihr h.2]
  | koreTop srt ih =>
    simp [noMV] at h
    simp [instantiateP, ih h]
  | koreDv srt v ihs ihv =>
    simp [noMV] at h
    simp [instantiateP, ihs h.1, ihv h.2]
  | koreApplies srts chain ihs ihc =>
    simp [noMV] at h
    simp [instantiateP, ihs h.1, ihc h.2]
  | cell label value ihl ihv =>
    simp [noMV] at h
    simp [instantiateP, ihl h.1, ihv h.2]
  | koreNestedCells label value ihl ihv =>
    simp [noMV] at h
    simp [instantiateP, ihl h.1, ihv h.2]
  | andP l r ihl ihr =>
    simp [noMV] at h
    simp [instantiateP, ihl h.1, ihr h.2]
  | topP => rfl

/--
Modelled from the spec: `kl.deconstruct_nary_application` (absent
`kore_lemmas.py`) decomposes an application spine into its head and the
argument list; this development only needs the head.
-/
def deconstructHead : Pattern → Pattern
  | .app l _ => deconstructHead l
  | p => p

/-- True exactly on plain-cell notation nodes (the `isinstance(x, kl.Cell)`
test of `convert_cell`). -/
def isCellNode : Pattern → Bool
  | .cell _ _ => true
  | _ => false

/-- chain_patterns of `kore_converter.py`: the left fold of binary
application over a non-empty pattern list; the empty list is a caller
error. -/
def chainPatterns : List Pattern → Option Pattern
  | [] => none
  | p :: ps => some (ps.foldl Pattern.app p)

/--
Modelled from the spec: `functional` of the absent `definedness.py`
builds the functional-symbol assertion
`Exists(v, (v → p) ∧ (p → v))` for a substituted pattern `p`, matching
the explicit formula in `KoreConverter._construct_subst_axioms`.
-/
def functionalP (p : Pattern) : Pattern :=
  .ex 0 (.andP (.implies (.evar 0) p) (.implies p (.evar 0)))

/--
The Kore abstract syntax handled by `KoreConverter._convert_pattern`
(`pyk.kore.syntax`): binary rewrite relation, conjunction, disjunction,
application, element variable, top, and domain value.  Sorts are
represented by their names.  The argument tuple of an application is
encoded as a right-nested `argsCons` chain ending in `argsNil`;
well-formed syntax uses these two constructors only in argument
position.
-/
inductive KorePattern where
  | rewrites (sort : String) (l r : KorePattern)
  | andK (sort : String) (l r : KorePattern)
  | orK (sort : String) (l r : KorePattern)
  | app (symbol : String) (sorts : List String) (args : KorePattern)
  | argsNil
  | argsCons (head tail : KorePattern)
  | evarK (name : String) (sort : String)
  | topK (sort : String)
  | dv (sort : String) (value : String)
deriving DecidableEq, Repr

/-- One top-level Kore axiom (`kore.Axiom`); only its pattern matters to
the converter, and value equality on it is the axiom-cache key. -/
structure KoreAxiom where
  pattern : KorePattern
deriving DecidableEq, Repr

/-- AxiomType of `kore_converter.py`. -/
inductive AxiomType where
  | Unclassified
  | RewriteRule
  | FunctionalSymbol
  | FunctionEvent
  | HookEvent
deriving DecidableEq, Repr

/-- ConvertedAxiom of `kore_converter.py`: a classified converted pattern. -/
structure ConvertedAxiom where
  kind : AxiomType
  pattern : Pattern
deriving DecidableEq, Repr

/-- Insert into a Python-set-modelling list: keep the list unchanged when
the element is already present, append it otherwise. -/
def insertUnique {α : Type} [DecidableEq α] (l : List α) (x : α) : List α :=
  if x ∈ l then l else l ++ [x]

/--
The regex test `match(r"Lbl'-LT-'(.+)'-GT-'", symbol)` of `is_cell`,
computed on character lists: the symbol must start with `Lbl'-LT-'` and,
greedily, the group extends to the last occurrence of `'-GT-'` that
leaves the group non-empty.  Returns the group (the cell name).
-/
def cellNameChars (cs : List Char) : Option (List Char) :=
  let pre : List Char := "Lbl'-LT-'".data
  let marker : List Char := "'-GT-'".data
  if pre.isPrefixOf cs then
    let t := cs.drop 9
    match ((List.range (t.length + 1)).filter
        (fun i => decide (1 ≤ i) && marker.isPrefixOf (t.drop i))).max? with
    | some i => some (t.take i)
    | none => none
  else none

/-- Cell-name extraction on strings (`is_cell` of `kore_converter.py`,
without the `isinstance(_, kore.App)` part, which callers check). -/
def cellNameOf (s : String) : Option String :=
  (cellNameChars s.data).map fun cs => String.mk cs

/--
The mutable caches of one `KoreConverter` that `_convert_pattern`
reads and writes: `_symbols` (name-keyed, insertion ordered),
`_metavars` (ids assigned by arrival order, so the map's length),
`_raw_functional_symbols` (fixed after construction),
`_functional_symbols`, and `_cell_symbols` (both grow monotonically).
-/
structure SymbolTables where
  symbols : List (String × Pattern)
  metavars : List (String × Nat)
  rawFunctionalSymbols : List String
  functionalSymbols : List Pattern
  cellSymbols : List String
deriving DecidableEq, Repr

/-- KoreConverter._resolve_symbol, string branch: cache a `kore_`-prefixed
symbol and register it as functional when its raw name was declared
functional. -/
def resolve_symbol_str (st : SymbolTables) (name : String) : Pattern × SymbolTables :=
  match st.symbols.lookup name with
  | some sym => (sym, st)
  | none =>
    let sym := Pattern.symbol ("kore_" ++ name)
    let st1 := { st with symbols := st.symbols ++ [(name, sym)] }
    let st2 :=
      if name ∈ st1.rawFunctionalSymbols then
        { st1 with functionalSymbols := insertUnique st1.functionalSymbols sym }
      else st1
    (sym, st2)

/-- KoreConverter._resolve_symbol, sort branch: cache a `kore_sort_`-prefixed
symbol keyed by the sort's name in the same `_symbols` table. -/
def resolve_symbol_sort (st : SymbolTables) (name : String) : Pattern × SymbolTables :=
  match st.symbols.lookup name with
  | some sym => (sym, st)
  | none =>
    let sym := Pattern.symbol ("kore_sort_" ++ name)
    (sym, { st with symbols := st.symbols ++ [(name, sym)] })

/-- KoreConverter._resolve_metavar: metavariable ids are assigned in
arrival order (the current size of the metavariable table). -/
def resolve_metavar (st : SymbolTables) (name : String) : Pattern × SymbolTables :=
  match st.metavars.lookup name with
  | some id => (Pattern.metavar id, st)
  | none =>
    let id := st.metavars.length
    (Pattern.metavar id, { st with metavars := st.metavars ++ [(name, id)] })

/-- Resolve a list of sort names in order (the `sorts_patterns`
comprehension of the application branch). -/
def resolve_sorts (st : SymbolTables) : List String → List Pattern × SymbolTables
  | [] => ([], st)
  | n :: ns =>
    let (p, st1) := resolve_symbol_sort st n
    let (ps, st2) := resolve_sorts st1 ns
    (p :: ps, st2)

/-- The registration prefix of `convert_cell`: resolve the extracted cell
name, add the full application symbol to the recognized cell symbols, and
register the resolved cell symbol as functional when the full symbol was
declared functional. -/
def cell_register (st : SymbolTables) (sym cellName : String) : Pattern × SymbolTables :=
  let (cellSym, st1) := resolve_symbol_str st cellName
  let st2 := { st1 with cellSymbols := insertUnique st1.cellSymbols sym }
  let st3 :=
    if sym ∈ st2.rawFunctionalSymbols then
      { st2 with functionalSymbols := insertUnique st2.functionalSymbols cellSym }
    else st2
  (cellSym, st3)

mutual
/--
KoreConverter._convert_pattern: grammar-directed conversion of one Kore
pattern, threading the converter's caches; an unsupported node is a
fatal error (`none`).  An application whose symbol is a recognized cell
symbol is converted by `convert_cell`.
-/
def convert_pattern (st : SymbolTables) : KorePattern → Option (Pattern × SymbolTables)
  | .rewrites srt l r =>
    let (srtSym, st1) := resolve_symbol_sort st srt
    match convert_pattern st1 l with
    | none => none
    | some (lp, st2) =>
      match convert_pattern st2 r with
      | none => none
      | some (rp, st3) => some (.koreRewrites srtSym lp rp, st3)
  | .andK srt l r =>
    let (srtSym, st1) := resolve_symbol_sort st srt
    match convert_pattern st1 l with
    | none => none
    | some (lp, st2) =>
      match convert_pattern st2 r with
      | none => none
      | some (rp, st3) => some (.koreAnd srtSym lp rp, st3)
  | .orK srt l r =>
    let (srtSym, st1) := resolve_symbol_sort st srt
    match convert_pattern st1 l with
    | none => none
    | some (lp, st2) =>
      match convert_pattern st2 r with
      | none => none
      | some (rp, st3) => some (.koreOr srtSym lp rp, st3)
  | .app sym sorts args =>
    if sym ∈ st.cellSymbols then convert_cell st sym args
    else
      let (appSym, st1) := resolve_symbol_str st sym
      match convert_args st1 args with
      | none => none
      | some (argps, st2) =>
        let (sortps, st3) := resolve_sorts st2 sorts
        match chainPatterns (appSym :: argps) with
        | none => none
        | some argsChain =>
          let appSorts := if sortps = [] then [Pattern.topP] else sortps
          match chainPatterns appSorts with
          | none => none
          | some sortsChain => some (.koreApplies sortsChain argsChain, st3)
  | .evarK name _ => some (resolve_metavar st name)
  | .topK srt =>
    let (srtSym, st1) := resolve_symbol_sort st srt
    some (.koreTop srtSym, st1)
  | .dv srt value =>
    let (srtSym, st1) := resolve_symbol_sort st srt
    let (valueSym, st2) := resolve_symbol_str st1 value
    some (.koreDv srtSym valueSym, st2)
  | .argsNil => none
  | .argsCons _ _ => none
termination_by p => (sizeOf p, 0)

/-- Plain conversion of an argument tuple, in order (the
`args_patterns` comprehension of the non-cell application branch). -/
def convert_args (st : SymbolTables) : KorePattern → Option (List Pattern × SymbolTables)
  | .argsNil => some ([], st)
  | .argsCons c cs =>
    match convert_pattern st c with
    | none => none
    | some (p, st1) =>
      match convert_args st1 cs with
      | none => none
      | some (ps, st2) => some (p :: ps, st2)
  | _ => none
termination_by p => (sizeOf p, 0)

/-- Conversion of one child of a cell: a child that is itself a cell (an
application whose symbol matches the cell regex) goes through
`convert_cell`, any other child through `_convert_pattern`. -/
def convert_child (st : SymbolTables) : KorePattern → Option (Pattern × SymbolTables)
  | .app sym2 sorts2 args2 =>
    if (cellNameOf sym2).isSome then convert_cell st sym2 args2
    else convert_pattern st (.app sym2 sorts2 args2)
  | c => convert_pattern st c
termination_by p => (sizeOf p, 1)

/--
convert_cell of `kore_converter.py`, acting on the destructured
application `sym sorts args`: the symbol must match the cell regex;
the extracted name is resolved and registered; a cell with no children
converts to its own resolved head symbol; otherwise the converted
children are chained and wrapped in `KoreNestedCells` when some
converted child is a plain-cell node (the chain must then be an
application) and in plain `Cell` otherwise.
-/
def convert_cell (st : SymbolTables) (sym : String) : KorePattern → Option (Pattern × SymbolTables)
  | .argsNil =>
    match cellNameOf sym with
    | none => none
    | some cn => some (cell_register st sym cn)
  | .argsCons c cs =>
    match cellNameOf sym with
    | none => none
    | some cn =>
      let (cellSym, st1) := cell_register st sym cn
      match convert_child st1 c with
      | none => none
      | some (p, st2) =>
        match convert_cell_kids st2 cs with
        | none => none
        | some (ps, st3) =>
          match chainPatterns (p :: ps) with
          | none => none
          | some chained =>
            if (p :: ps).any isCellNode then
              match chained with
              | .app cl cr => some (.koreNestedCells cellSym (.app cl cr), st3)
              | _ => none
            else some (.cell cellSym chained, st3)
  | _ => none
termination_by p => (sizeOf p, 0)

/-- Conversion of the remaining children of a cell, in order, each via
`convert_child`. -/
def convert_cell_kids (st : SymbolTables) : KorePattern → Option (List Pattern × SymbolTables)
  | .argsNil => some ([], st)
  | .argsCons c cs =>
    match convert_child st c with
    | none => none
    | some (p, st1) =>
      match convert_cell_kids st1 cs with
      | none => none
      | some (ps, st2) => some (p :: ps, st2)
  | _ => none
termination_by p => (sizeOf p, 0)
end

/--
The axiom-shape preprocessing of `KoreConverter._convert_axiom`: a
top-level `Rewrites` must have a conjunction on each side and is
classified `RewriteRule`, rewritten to `Rewrites(sort, left.left,
right.left)` (the side-condition conjuncts are discarded); a `Rewrites`
with a non-conjunction side is a fatal assertion; every other shape is
classified `Unclassified` and kept as-is.
-/
def preprocessAx : KorePattern → Option (AxiomType × KorePattern)
  | .rewrites srt l r =>
    match l, r with
    | .andK _ ll _, .andK _ rl _ => some (.RewriteRule, .rewrites srt ll rl)
    | _, _ => none
  | p => some (.Unclassified, p)

/-- The converter's full mutable state: the symbol tables plus the
axiom-to-ConvertedAxiom cache (`_axioms_cache`), keyed by value equality
on the raw axiom. -/
structure ConverterState where
  tables : SymbolTables
  axiomsCache : List (KoreAxiom × ConvertedAxiom)
deriving DecidableEq, Repr

/--
KoreConverter._convert_axiom: answer from the axiom cache when possible;
otherwise classify and preprocess the axiom's pattern, convert the
preprocessed pattern, store the classified result in the cache, and
return it.
-/
def convertAxiom (cst : ConverterState) (ax : KoreAxiom) : Option (ConvertedAxiom × ConverterState) :=
  match cst.axiomsCache.lookup ax with
  | some cached => some (cached, cst)
  | none =>
    match preprocessAx ax.pattern with
    | none => none
    | some (ty, pre) =>
      match convert_pattern cst.tables pre with
      | none => none
      | some (cp, t1) =>
        let conv : ConvertedAxiom := ⟨ty, cp⟩
        some (conv, ⟨t1, cst.axiomsCache ++ [(ax, conv)]⟩)

/--
KoreConverter._organize_axioms: group a list of converted axioms by
their `AxiomType` (`setdefault` + append), skipping an axiom that is
already present in its group.  The result is read as a total function
from `AxiomType` to the group's ordered list.
-/
def organize_axioms (axs : List ConvertedAxiom) : AxiomType → List ConvertedAxiom :=
  axs.foldl
    (fun acc ax =>
      if ax ∈ acc ax.kind then acc
      else fun t => if t = ax.kind then acc ax.kind ++ [ax] else acc t)
    (fun _ => [])

/-- First-seen deduplication relative to an already-seen prefix: keep the
first occurrence of each element, in order. -/
def dedupFirstAux {α : Type} [DecidableEq α] (seen : List α) : List α → List α
  | [] => []
  | x :: xs =>
    if x ∈ seen then dedupFirstAux seen xs
    else x :: dedupFirstAux (seen ++ [x]) xs

/-- The specification's description of one organized group: the input
filtered to the group's type, first-seen order preserved, exact
duplicates dropped. -/
def dedupFirst {α : Type} [DecidableEq α] (l : List α) : List α :=
  dedupFirstAux [] l

/--
KoreConverter._construct_subst_axioms over the substituted patterns of a
trace step: each pattern must decompose to an application spine headed by
a symbol registered functional, and yields one `FunctionalSymbol` axiom
`Exists(v, (v → p) ∧ (p → v))`; a non-symbol or unregistered head is a
fatal assertion.
-/
def construct_subst_axioms (t : SymbolTables) : List Pattern → Option (List ConvertedAxiom)
  | [] => some []
  | p :: ps =>
    match deconstructHead p with
    | .symbol n =>
      if Pattern.symbol n ∈ t.functionalSymbols then
        match construct_subst_axioms t ps with
        | none => none
        | some rest =>
          some (⟨.FunctionalSymbol,
                 .ex 0 (.andP (.implies (.evar 0) p) (.implies p (.evar 0)))⟩ :: rest)
      else none
    | _ => none

/--
Modelled from the spec: one declared symbol of the language semantics
(absent `language_semantics.py`), carrying its name and whether it was
declared with the `functional` attribute.
-/
structure KSymbol where
  name : String
  is_functional : Bool
deriving DecidableEq, Repr

/--
Modelled from the spec: one indexed axiom of the language semantics
(absent `language_semantics.py`): either a rewriting rule or an
equational (simplification) rule with its precomputed requires-clause
substitutions.
-/
inductive KAxiom where
  | krewriting (pattern : Pattern)
  | kequational (right : Pattern) (substitutions_from_requires : List (Nat × Pattern))
deriving DecidableEq, Repr

/-- KRewritingRule as the execution engine consumes it: the converted
rewrite pattern. -/
structure KRewritingRule where
  pattern : Pattern
deriving DecidableEq, Repr

/--
Modelled from the spec: the language-semantics facade used by the
execution engine (absent `language_semantics.py`): the declared symbols,
the ordinal-indexed axioms, and the static count of nested
simplification redexes a pattern still contains.
-/
structure LanguageSemantics where
  ksymbols : List KSymbol
  axs : List KAxiom
  count_simplifications : Pattern → Nat

/-- Modelled from the spec: `resolve_to_ksymbol` answers the declared
symbol behind a converted `Symbol` node, if any. -/
def resolve_to_ksymbol (ls : LanguageSemantics) : Pattern → Option KSymbol
  | .symbol n => ls.ksymbols.find? fun k => k.name = n
  | _ => none

/--
ExecutionProofExp.collect_functional_axioms: every substituted pattern
must decompose to a spine headed by a `Symbol` that resolves to a
declared functional symbol, and yields one `FunctionalSymbol` axiom
built by `functional`; any violation is a fatal assertion.
-/
def collect_functional_axioms (ls : LanguageSemantics) :
    List (Nat × Pattern) → Option (List ConvertedAxiom)
  | [] => some []
  | (_, p) :: ps =>
    match resolve_to_ksymbol ls (deconstructHead p) with
    | none => none
    | some k =>
      if k.is_functional then
        match collect_functional_axioms ls ps with
        | none => none
        | some rest => some (⟨.FunctionalSymbol, functionalP p⟩ :: rest)
      else none

/--
Modelled from the spec: the immediate children of a pattern, in order —
the zero-based child indexing that a `Location` path traverses.
-/
def childrenOf : Pattern → List Pattern
  | .symbol _ => []
  | .evar _ => []
  | .svar _ => []
  | .metavar _ => []
  | .app l r => [l, r]
  | .implies l r => [l, r]
  | .ex _ body => [body]
  | .mu _ body => [body]
  | .koreRewrites srt l r => [srt, l, r]
  | .koreAnd srt l r => [srt, l, r]
  | .koreOr srt l r => [srt, l, r]
  | .koreTop srt => [srt]
  | .koreDv srt v => [srt, v]
  | .koreApplies srts chain => [srts, chain]
  | .cell label value => [label, value]
  | .koreNestedCells label value => [label, value]
  | .andP l r => [l, r]
  | .topP => []

/-- Rebuild a pattern from its constructor and a replacement child list of
the right arity. -/
def withChildren : Pattern → List Pattern → Option Pattern
  | .symbol n, [] => some (.symbol n)
  | .evar n, [] => some (.evar n)
  | .svar n, [] => some (.svar n)
  | .metavar n, [] => some (.metavar n)
  | .app _ _, [l, r] => some (.app l r)
  | .implies _ _, [l, r] => some (.implies l r)
  | .ex v _, [body] => some (.ex v body)
  | .mu v _, [body] => some (.mu v body)
  | .koreRewrites _ _ _, [srt, l, r] => some (.koreRewrites srt l r)
  | .koreAnd _ _ _, [srt, l, r] => some (.koreAnd srt l r)
  | .koreOr _ _ _, [srt, l, r] => some (.koreOr srt l r)
  | .koreTop _, [srt] => some (.koreTop srt)
  | .koreDv _ _, [srt, v] => some (.koreDv srt v)
  | .koreApplies _ _, [srts, chain] => some (.koreApplies srts chain)
  | .cell _ _, [label, value] => some (.cell label value)
  | .koreNestedCells _ _, [label, value] => some (.koreNestedCells label value)
  | .andP _ _, [l, r] => some (.andP l r)
  | .topP, [] => some .topP
  | _, _ => none

/--
Modelled from the spec: `SimplificationVisitor.get_subpattern` (left
`NotImplementedError` in the source) resolves a location — a sequence of
zero-based child indices — from the given root; a path that does not
exist is fatal.
-/
def get_subpattern : List Nat → Pattern → Option Pattern
  | [], p => some p
  | i :: rest, p =>
    match (childrenOf p)[i]? with
    | none => none
    | some c => get_subpattern rest c

/--
Modelled from the spec: `SimplificationVisitor.update_subterm` (left
`NotImplementedError` in the source) replaces the sub-pattern at the
location by the plug; a path that does not exist is fatal.
-/
def update_subterm : List Nat → Pattern → Pattern → Option Pattern
  | [], _, plug => some plug
  | i :: rest, p, plug =>
    match (childrenOf p)[i]? with
    | none => none
    | some c =>
      match update_subterm rest c plug with
      | none => none
      | some c2 => withChildren p ((childrenOf p).set i c2)

/-- SimplificationInfo: one in-progress simplification frame.  The
remaining count is an integer, as in the source. -/
structure SimplificationInfo where
  location : List Nat
  initial_pattern : Pattern
  simplification_result : Pattern
  simplifications_left : Int
deriving DecidableEq, Repr

/--
The state of one `SimplificationVisitor`.  The stack is kept with its
top frame first (the source appends to the end of a Python list and
works on `[-1]`).  The field `curr_config` models the *separate*
instance attribute that the assignment `self.curr_config = ...` in
`__exit__` creates: it is distinct from `_curr_config`, which is the
field every reader (`simplified_configuration`, `update_configuration`)
uses, and it starts out absent (`none`).
-/
structure SimplificationVisitorState where
  _curr_config : Pattern
  _simplification_stack : List SimplificationInfo
  _in_simplification : Bool
  curr_config : Option Pattern
deriving DecidableEq, Repr

/-- SimplificationVisitor.update_configuration: requires an empty stack
and no open simplification, then replaces `_curr_config`. -/
def update_configuration (v : SimplificationVisitorState) (newConfig : Pattern) :
    Option SimplificationVisitorState :=
  if v._simplification_stack.isEmpty && !v._in_simplification then
    some { v with _curr_config := newConfig }
  else none

/--
SimplificationVisitor.__call__: requires an open simplification scope;
resolves the location against the current configuration (empty stack) or
the top frame's in-progress result; looks up the ordinal's axiom, which
must be equational; applies the rule's requires-clause substitutions and
then the hint's substitutions to the rule's right side; counts the
remaining nested simplifications; and pushes the new frame.
-/
def visitor_call (ls : LanguageSemantics) (ordinal : Nat)
    (substitution : List (Nat × Pattern)) (location : List Nat)
    (v : SimplificationVisitorState) : Option SimplificationVisitorState :=
  if !v._in_simplification then none
  else
    let root :=
      match v._simplification_stack with
      | [] => v._curr_config
      | top :: _ => top.simplification_result
    match get_subpattern location root with
    | none => none
    | some sub_pattern =>
      match ls.axs[ordinal]? with
      | none => none
      | some (.krewriting _) => none
      | some (.kequational right base_substitutions) =>
        let simplified_rhs := apply_substitutions (apply_substitutions right base_substitutions) substitution
        let simplifications_left := ls.count_simplifications simplified_rhs
        let new_info : SimplificationInfo :=
          ⟨location, sub_pattern, simplified_rhs, (simplifications_left : Int)⟩
        some { v with _simplification_stack := new_info :: v._simplification_stack }

/--
The drain loop of `SimplificationVisitor.__exit__`: while the top frame's
remaining count is zero, pop it; splice its result into its own location
inside the new top frame's result and decrement that frame's count, or —
when the stack has emptied — assign the splice of the result into the
base configuration to the *new attribute* `curr_config` (the source
writes `self.curr_config`, not `self._curr_config`; the base
configuration read by later code is left untouched).  Returns the final
stack and the final value of the `curr_config` attribute.
-/
def drain_go (base : Pattern) (top : SimplificationInfo) :
    List SimplificationInfo → Option Pattern → Option (List SimplificationInfo × Option Pattern)
  | rest, typo =>
    if top.simplifications_left = 0 then
      match rest with
      | next :: rest2 =>
        match update_subterm top.location next.simplification_result top.simplification_result with
        | none => none
        | some merged =>
          drain_go base
            { next with
                simplifications_left := next.simplifications_left - 1,
                simplification_result := merged } rest2 typo
      | [] =>
        match update_subterm top.location base top.simplification_result with
        | none => none
        | some merged => some ([], some merged)
    else some (top :: rest, typo)

/-- The drain loop entry: nothing happens on an empty stack. -/
def drain_stack (base : Pattern) (stack : List SimplificationInfo) (typo : Option Pattern) :
    Option (List SimplificationInfo × Option Pattern) :=
  match stack with
  | [] => some ([], typo)
  | top :: rest => drain_go base top rest typo

/-- SimplificationVisitor.__exit__: run the drain loop.  The source does
not reset `_in_simplification` here, and `_curr_config` is never
assigned (only the separate `curr_config` attribute is). -/
def visitor_exit (v : SimplificationVisitorState) : Option SimplificationVisitorState :=
  match drain_stack v._curr_config v._simplification_stack v.curr_config with
  | none => none
  | some (stack2, typo2) =>
    some { v with _simplification_stack := stack2, curr_config := typo2 }

/--
The state of one `ExecutionProofExp` together with the proof-expression
fields it inherits.  Modelled from the spec: the base class `ProofExp`
(absent `proof.py`) owns the accumulated claims, their proof expressions
(represented by their conclusions), the asserted axioms and assumptions.
-/
structure ExecutionProofState where
  _curr_config : Pattern
  claims : List Pattern
  proofs : List Pattern
  axs : List Pattern
  assumptions : List Pattern
  visitor : SimplificationVisitorState
deriving DecidableEq, Repr

/-- ExecutionProofExp.__init__ with the initial configuration: empty
record, and a fresh simplification visitor sharing the configuration. -/
def init_engine (cfg : Pattern) : ExecutionProofState :=
  { _curr_config := cfg
    claims := []
    proofs := []
    axs := []
    assumptions := []
    visitor :=
      { _curr_config := cfg
        _simplification_stack := []
        _in_simplification := false
        curr_config := none } }

/--
ExecutionProofExp.rewrite_event: instantiate the rule's pattern with the
substitution; the result must match the `kore_rewrites` notation and its
left side must equal the current configuration; then the per-step
functional axioms are collected and asserted together with the rule, the
instantiated axiom is appended as a claim with its instantiated proof,
the configuration advances to the right side, and the visitor's
configuration is updated (which requires no pending simplification).
Any violated assertion is fatal.
-/
def rewrite_event (ls : LanguageSemantics) (rule : KRewritingRule)
    (substitution : List (Nat × Pattern)) (st : ExecutionProofState) :
    Option ExecutionProofState :=
  let instantiatedAx := instantiateP substitution rule.pattern
  match instantiatedAx with
  | .koreRewrites _ lhs rhs =>
    if lhs = st._curr_config then
      match collect_functional_axioms ls substitution with
      | none => none
      | some funcAxs =>
        let st1 :=
          { st with
              assumptions := st.assumptions ++ funcAxs.map ConvertedAxiom.pattern
              axs := st.axs ++ [rule.pattern]
              claims := st.claims ++ [instantiatedAx]
              proofs := st.proofs ++ [instantiatedAx]
              _curr_config := rhs }
        match update_configuration st1.visitor rhs with
        | none => none
        | some v2 => some { st1 with visitor := v2 }
    else none
  | _ => none

/--
ExecutionProofExp.simplification_event: open the visitor's scope
(`__enter__` requires no scope already open), delegate one call, close
the scope (draining), then read the visitor's `simplified_configuration`
property — which returns `_curr_config` — into the engine's current
configuration.
-/
def simplification_event (ls : LanguageSemantics) (ordinal : Nat)
    (substitution : List (Nat × Pattern)) (location : List Nat)
    (st : ExecutionProofState) : Option ExecutionProofState :=
  if st.visitor._in_simplification then none
  else
    let v1 := { st.visitor with _in_simplification := true }
    match visitor_call ls ordinal substitution location v1 with
    | none => none
    | some v2 =>
      match visitor_exit v2 with
      | none => none
      | some v3 => some { st with visitor := v3, _curr_config := v3._curr_config }

/-- RewriteStepExpression as `from_proof_hints` consumes it: the hint's
axiom (a rewriting rule, or `none` for any other kind, which the loop
does not support yet), its substitutions, and the configuration before
the step. -/
structure RewriteStepExpression where
  axiomOfHint : Option KRewritingRule
  substitutions : List (Nat × Pattern)
  configuration_before : Pattern
deriving DecidableEq, Repr

/-- The claims/proofs content of the returned proof expression. -/
structure ProofArtifact where
  claims : List Pattern
  proofs : List Pattern
deriving DecidableEq, Repr

/-- The loop of `from_proof_hints`: the first hint creates the engine
with its `configuration_before`; a rewriting hint replays a rewrite
event; any other hint kind is an unimplemented fatal stub. -/
def hints_loop (ls : LanguageSemantics) :
    Option ExecutionProofState → List RewriteStepExpression → Option (Option ExecutionProofState)
  | acc, [] => some acc
  | acc, h :: rest =>
    let pe :=
      match acc with
      | none => init_engine h.configuration_before
      | some pe => pe
    match h.axiomOfHint with
    | some rule =>
      match rewrite_event ls rule h.substitutions pe with
      | none => none
      | some pe2 => hints_loop ls (some pe2) rest
    | none => none

/--
ExecutionProofExp.from_proof_hints: replay the hints; an empty hint
sequence yields a fresh, empty proof expression (a warning is printed
but the run does not fail), otherwise the accumulated engine state is
returned.
-/
def from_proof_hints (hints : List RewriteStepExpression) (ls : LanguageSemantics) :
    Option ProofArtifact :=
  match hints_loop ls none hints with
  | none => none
  | some none => some ⟨[], []⟩
  | some (some pe) => some ⟨pe.claims, pe.proofs⟩

/--
Modelled from the spec: the proof-object model of the absent `proof.py`.
`Prop1` and `Prop2` are the two propositional axiom schemas;
`ModusPonens(left, right)` is valid only when `right`'s conclusion is an
implication whose antecedent is `left`'s conclusion; `inst` substitutes
one metavariable throughout a proof's conclusion.  The `assump`
constructor is the `Assumption` subclass defined by the repository's
unit test `test_propositional.py`, a proof with a stipulated conclusion.
-/
inductive Proof where
  | prop1
  | prop2
  | modus_ponens (left right : Proof)
  | inst (p : Proof) (v : Nat) (q : Pattern)
  | assump (c : Pattern)
deriving DecidableEq, Repr

/--
Modelled from the spec: `Proof.conclusion` — the only observable of a
proof.  An invalid modus ponens (right conclusion not an implication, or
antecedent mismatch) is fatal (`none`), and fatality propagates.
-/
def conclusion : Proof → Option Pattern
  | .prop1 =>
    some (.implies (.metavar 0) (.implies (.metavar 1) (.metavar 0)))
  | .prop2 =>
    some (.implies (.implies (.metavar 0) (.implies (.metavar 1) (.metavar 2)))
      (.implies (.implies (.metavar 0) (.metavar 1)) (.implies (.metavar 0) (.metavar 2))))
  | .modus_ponens l r =>
    match conclusion r with
    | some (.implies a b) =>
      match conclusion l with
      | some cl => if cl = a then some b else none
      | none => none
    | _ => none
  | .inst p v q => (conclusion p).map (instantiateP [(v, q)])
  | .assump c => some c

/--
Propositional.imp_transitivity: both conclusions must destructure as
implications with equal middle patterns (a mismatch or non-implication
raises); the result is assembled from `Prop1`, `Prop2` and modus ponens
exactly as in the source.
-/
def imp_transitivity (left right : Proof) : Option Proof :=
  match conclusion left with
  | some (.implies phi0 phi1) =>
    match conclusion right with
    | some (.implies phi1_r phi2) =>
      if phi1_r = phi1 then
        let step1 := Proof.modus_ponens right (Proof.inst .prop1 0 (.implies phi1_r phi2))
        let step2 := Proof.modus_ponens step1
          (((Proof.prop2.inst 1 phi1).inst 2 phi2).inst 0 (.metavar 1))
        some (Proof.modus_ponens left (step2.inst 1 phi0))
      else none
    | _ => none
  | _ => none

/--
Modelled from the spec: the effect of one `Proof.serialize` call (absent
`proof.py`) on the pending claims list — publishing a proof consumes the
matching head of the claims list; a mismatch is a fatal packaging
error.  Proofs are represented by their conclusions.
-/
def consume_claim (concl : Pattern) : List Pattern → Option (List Pattern)
  | [] => none
  | c :: cs => if concl = c then some cs else none

/-- Serialize the proofs in declaration order, each consuming its claim;
returns the remaining claims list. -/
def serialize_proofs : List Pattern → List Pattern → Option (List Pattern)
  | [], cs => some cs
  | p :: ps, cs =>
    match consume_claim p cs with
    | none => none
    | some cs2 => serialize_proofs ps cs2

/--
Propositional.serialize: write the claims in reverse of their
declaration order, then the proofs in declaration order, then assert
that the claims list has been fully consumed.  The output byte streams
are abstracted to the sequences of written claims and proofs (the opcode
encoding is an external wire contract).
-/
def serialize (claims proofs : List Pattern) : Option (List Pattern × List Pattern) :=
  let claims_out := claims.reverse
  match serialize_proofs proofs claims with
  | none => none
  | some rest => if rest = [] then some (claims_out, proofs) else none

/-! ## Claim theorems -/

/--
C9: if the input trace is empty (contains no step events), the Execution
Proof Engine does not fail: it yields a well-formed but empty proof
artifact with no claims and no proofs.
-/
theorem c9_empty_trace (ls : LanguageSemantics) :
    from_proof_hints [] ls = some { claims := [], proofs := [] } := rfl

theorem serialize_proofs_self (cs : List Pattern) : serialize_proofs cs cs = some [] := by
  induction cs with
  | nil => rfl
  | cons c cs ih => simp [serialize_proofs, consume_claim, ih]

theorem serialize_proofs_length (ps : List Pattern) :
    ∀ (cs rest : List Pattern), serialize_proofs ps cs = some rest →
      rest.length + ps.length = cs.length := by
  induction ps with
  | nil =>
    intro cs rest h
    simp [serialize_proofs] at h
    simp [h]
  | cons p ps ih =>
    intro cs rest h
    cases cs with
    | nil => simp [serialize_proofs, consume_claim] at h
    | cons c cs =>
      simp only [serialize_proofs, consume_claim] at h
      by_cases hpc : p = c
      · simp only [hpc, if_pos rfl] at h
        have := ih cs rest h
        simp [List.length_cons]
        omega
      · simp [if_neg hpc] at h

/--
C4: serialization writes the claims in reverse of their declaration
order, then the proofs in declaration order, and after all proofs are
written the claims list must be fully consumed: serializing N claims
with N matching proofs succeeds (the claims stream is the reversed
claims list, the proofs stream the proofs in order), while serializing N
claims with fewer than N proofs fails fatally.
-/
theorem c4_serializer_completeness :
    (∀ claims : List Pattern, serialize claims claims = some (claims.reverse, claims)) ∧
    (∀ claims proofs : List Pattern, proofs.length < claims.length →
      serialize claims proofs = none) := by
  constructor
  · intro claims
    simp [serialize, serialize_proofs_self]
  · intro claims proofs hlt
    unfold serialize
    cases h : serialize_proofs proofs claims with
    | none => rfl
    | some rest =>
      have hlen := serialize_proofs_length proofs claims rest h
      have : rest ≠ [] := by
        intro hnil
        rw [hnil] at hlen
        simp at hlen
        omega
      simp [this]

/-- Witness for C4 at a one-claim input: one matching proof succeeds,
zero proofs fail. -/
theorem c4_witness :
    serialize [Pattern.topP] [Pattern.topP] = some ([Pattern.topP].reverse, [Pattern.topP]) ∧
    serialize [Pattern.topP] [] = none :=
  ⟨c4_serializer_completeness.1 [Pattern.topP],
   c4_serializer_completeness.2 [Pattern.topP] [] (by decide)⟩

/--
C2 (code bug): after a fully drained simplification scope the engine's
current configuration should reflect the completed simplification, but
`__exit__` assigns the spliced result to `self.curr_config` — a fresh
attribute — instead of `self._curr_config`, which is what
`simplified_configuration` returns.  At a batch with a single frame
whose remaining count is 0 (rule ordinal 0 rewrites the whole
configuration, at location `[]`, to `kore_r`, and the semantics report
no nested simplifications), the event succeeds but the engine's current
configuration and the visitor's configuration remain the initial
`kore_c0`; the spliced result `kore_r` is stranded in the dead
`curr_config` attribute, even though splicing it into the base
configuration is well-defined and differs from the stale value.
-/
theorem c2_exit_typo_eval :
    (simplification_event
        ⟨[], [KAxiom.kequational (.symbol "kore_r") []], fun _ => 0⟩ 0 [] []
        (init_engine (.symbol "kore_c0"))).map
        (fun st => (st._curr_config, st.visitor._curr_config, st.visitor.curr_config))
      = some (.symbol "kore_c0", .symbol "kore_c0", some (.symbol "kore_r")) ∧
    update_subterm [] (.symbol "kore_c0") (.symbol "kore_r") = some (.symbol "kore_r") ∧
    Pattern.symbol "kore_r" ≠ Pattern.symbol "kore_c0" := by
  refine ⟨?_, by decide, by decide⟩
  decide

/--
C10 (amended): for proofs whose conclusions are implications `A → B` and
`B → C` over metavariable-free patterns, `imp_transitivity` returns a
proof whose conclusion is `A → C`; a middle-pattern mismatch, or a
conclusion that is not an implication, is fatal.  (When the conclusions
contain metavariables, the internal `Prop1`/`Prop2` instantiations can
capture them and the construction's modus ponens steps fail; see the
counterexample.)
-/
theorem c10_imp_transitivity :
    (∀ (l r : Proof) (A B C : Pattern),
        noMV A = true → noMV B = true → noMV C = true →
        conclusion l = some (.implies A B) →
        conclusion r = some (.implies B C) →
        ∃ p, imp_transitivity l r = some p ∧ conclusion p = some (.implies A C)) ∧
    (∀ (l r : Proof) (A B B2 C : Pattern),
        conclusion l = some (.implies A B) →
        conclusion r = some (.implies B2 C) → B2 ≠ B →
        imp_transitivity l r = none) ∧
    (∀ (l r : Proof),
        ((∀ A B, conclusion l ≠ some (.implies A B)) ∨
         (∀ B C, conclusion r ≠ some (.implies B C))) →
        imp_transitivity l r = none) := by
  refine ⟨?_, ?_, ?_⟩
  · intro l r A B C hA hB hC hl hr
    have hA2 : ∀ s, instantiateP s A = A := fun s => instantiateP_noop s A hA
    have hB2 : ∀ s, instantiateP s B = B := fun s => instantiateP_noop s B hB
    have hC2 : ∀ s, instantiateP s C = C := fun s => instantiateP_noop s C hC
    refine ⟨Proof.modus_ponens l
        ((Proof.modus_ponens
            (Proof.modus_ponens r (Proof.inst .prop1 0 (.implies B C)))
            (((Proof.prop2.inst 1 B).inst 2 C).inst 0 (.metavar 1))).inst 1 A), ?_, ?_⟩
    · simp [imp_transitivity, hl, hr]
    · simp [conclusion, hl, hr, instantiateP, hA2, hB2, hC2, List.lookup]
  · intro l r A B B2 C hl hr hne
    simp [imp_transitivity, hl, hr, hne]
  · intro l r h
    rcases h with h | h
    · unfold imp_transitivity
      cases hcl : conclusion l with
      | none => rfl
      | some p =>
        cases p <;> simp_all
    · unfold imp_transitivity
      cases hcl : conclusion l with
      | none => rfl
      | some p =>
        cases p <;> try rfl
        case implies A B =>
          cases hcr : conclusion r with
          | none => rfl
          | some q =>
            cases q <;> simp_all

/--
Witness for C10 at the unit test's inputs: assumptions with symbol-built
conclusions compose transitively.
-/
theorem c10_witness :
    ∃ p,
      imp_transitivity (Proof.assump (.implies (.symbol "s0") (.symbol "s1")))
        (Proof.assump (.implies (.symbol "s1") (.symbol "s2"))) = some p ∧
      conclusion p = some (.implies (.symbol "s0") (.symbol "s2")) :=
  c10_imp_transitivity.1 _ _ (.symbol "s0") (.symbol "s1") (.symbol "s2")
    (by decide) (by decide) (by decide) rfl rfl

/--
Counterexample to C10 as stated: with both inputs proving `φ0 → φ0`
(metavariable conclusions, as the `Assumption` subclass of the unit test
permits), the middle patterns match and both conclusions are
implications, yet the returned composition is not a proof of `A → C`:
its internal `Prop2` instantiation captures the metavariables and the
final conclusion computation fails instead of yielding `φ0 → φ0`.
-/
theorem c10_counterexample :
    conclusion (Proof.assump (.implies (.metavar 0) (.metavar 0)))
        = some (.implies (.metavar 0) (.metavar 0)) ∧
    (imp_transitivity (Proof.assump (.implies (.metavar 0) (.metavar 0)))
        (Proof.assump (.implies (.metavar 0) (.metavar 0)))).isSome = true ∧
    (imp_transitivity (Proof.assump (.implies (.metavar 0) (.metavar 0)))
        (Proof.assump (.implies (.metavar 0) (.metavar 0)))).bind conclusion = none := by
  refine ⟨rfl, by decide, by decide⟩

/--
C1 (amended): in state *stepping* (no pending simplification frames and
no open scope), for a rewriting rule with pattern
`Rewrites(sort, L, Rhs)` and a substitution whose per-step functional
axioms can be collected (every substituted pattern is an application of
a registered functional symbol): if `L[s]` equals the current
configuration, `rewrite_event` succeeds, appends exactly one claim/proof
pair (the instantiated axiom), asserts the functional axioms and the
rule, and advances the current configuration to `Rhs[s]`; if `L[s]`
differs from the current configuration it fails fatally (the failure
precedes every state mutation).
-/
theorem c1_rewrite_event_guard :
    ∀ (ls : LanguageSemantics) (srt L R : Pattern) (s : List (Nat × Pattern))
      (st : ExecutionProofState) (fas : List ConvertedAxiom),
      st.visitor._simplification_stack = [] →
      st.visitor._in_simplification = false →
      ((instantiateP s L = st._curr_config →
          collect_functional_axioms ls s = some fas →
          rewrite_event ls ⟨.koreRewrites srt L R⟩ s st =
            some { st with
                assumptions := st.assumptions ++ fas.map ConvertedAxiom.pattern
                axs := st.axs ++ [.koreRewrites srt L R]
                claims := st.claims ++ [instantiateP s (.koreRewrites srt L R)]
                proofs := st.proofs ++ [instantiateP s (.koreRewrites srt L R)]
                _curr_config := instantiateP s R
                visitor := { st.visitor with _curr_config := instantiateP s R } }) ∧
       (instantiateP s L ≠ st._curr_config →
          rewrite_event ls ⟨.koreRewrites srt L R⟩ s st = none)) := by
  intro ls srt L R s st fas hstack hsimp
  constructor
  · intro hmatch hcollect
    simp [rewrite_event, instantiateP, hmatch, hcollect, update_configuration, hstack, hsimp]
  · intro hne
    simp [rewrite_event, instantiateP, hne]

/--
Witness for C1 at a one-step input: the rule `metavar 0 ⇒ kore_b` under
the substitution `0 ↦ kore_a` matches the current configuration
`kore_a`, where `kore_a` resolves to a declared functional symbol.
-/
theorem c1_witness :
    rewrite_event ⟨[⟨"kore_a", true⟩], [], fun _ => 0⟩
        ⟨.koreRewrites (.symbol "srt") (.metavar 0) (.symbol "kore_b")⟩
        [(0, .symbol "kore_a")] (init_engine (.symbol "kore_a")) =
      some { init_engine (.symbol "kore_a") with
          assumptions := [functionalP (.symbol "kore_a")]
          axs := [.koreRewrites (.symbol "srt") (.metavar 0) (.symbol "kore_b")]
          claims := [instantiateP [(0, .symbol "kore_a")]
            (.koreRewrites (.symbol "srt") (.metavar 0) (.symbol "kore_b"))]
          proofs := [instantiateP [(0, .symbol "kore_a")]
            (.koreRewrites (.symbol "srt") (.metavar 0) (.symbol "kore_b"))]
          _curr_config := .symbol "kore_b"
          visitor := { (init_engine (.symbol "kore_a")).visitor with
            _curr_config := .symbol "kore_b" } } :=
  ((c1_rewrite_event_guard ⟨[⟨"kore_a", true⟩], [], fun _ => 0⟩ (.symbol "srt")
      (.metavar 0) (.symbol "kore_b") [(0, .symbol "kore_a")]
      (init_engine (.symbol "kore_a"))
      [⟨.FunctionalSymbol, functionalP (.symbol "kore_a")⟩] rfl rfl).1 rfl (by decide))

/--
Counterexample to C1 as stated: the left side of the instantiated rule
equals the current configuration, yet `rewrite_event` fails fatally,
because the substituted pattern `kore_a` does not resolve to a
registered functional symbol (the semantics declare no symbols), so the
per-step functional-axiom collection aborts the run — matching the left
side alone does not make `rewrite_event` succeed.
-/
theorem c1_counterexample :
    instantiateP [(0, .symbol "kore_a")] (.metavar 0)
        = (init_engine (.symbol "kore_a"))._curr_config ∧
    rewrite_event ⟨[], [], fun _ => 0⟩
        ⟨.koreRewrites (.symbol "srt") (.metavar 0) (.symbol "kore_b")⟩
        [(0, .symbol "kore_a")] (init_engine (.symbol "kore_a")) = none := by
  refine ⟨rfl, by decide⟩

/--
C3: for every substituted pattern of a trace step, generating the
per-step functional-symbol axiom succeeds exactly for patterns whose
spine head is a symbol registered functional, emitting
`Exists(v, (v → p) ∧ (p → v))` for the substituted pattern `p`;
a pattern whose head was never registered functional (a non-symbol head
included) is a fatal assertion.
-/
theorem c3_functional_subst_guard :
    (∀ (t : SymbolTables) (subs : List Pattern),
        (∀ p ∈ subs, ∃ n, deconstructHead p = .symbol n ∧
            Pattern.symbol n ∈ t.functionalSymbols) →
        construct_subst_axioms t subs =
          some (subs.map fun p => ⟨.FunctionalSymbol,
            .ex 0 (.andP (.implies (.evar 0) p) (.implies p (.evar 0)))⟩)) ∧
    (∀ (t : SymbolTables) (subs : List Pattern) (p : Pattern), p ∈ subs →
        (∀ n, deconstructHead p = .symbol n → Pattern.symbol n ∉ t.functionalSymbols) →
        construct_subst_axioms t subs = none) := by
  constructor
  · intro t subs h
    induction subs with
    | nil => rfl
    | cons q qs ih =>
      obtain ⟨n, hn, hmem⟩ := h q (List.mem_cons_self q qs)
      have ih2 := ih fun p hp => h p (List.mem_cons_of_mem q hp)
      simp [construct_subst_axioms, hn, hmem, ih2]
  · intro t subs p hp hbad
    induction subs with
    | nil => simp at hp
    | cons q qs ih =>
      rcases List.mem_cons.mp hp with hq | hq
      · subst hq
        unfold construct_subst_axioms
        cases hh : deconstructHead p with
        | symbol n => simp [hbad n hh]
        | evar m => rfl
        | svar m => rfl
        | metavar m => rfl
        | app a b => rfl
        | implies a b => rfl
        | ex v b => rfl
        | mu v b => rfl
        | koreRewrites a b c => rfl
        | koreAnd a b c => rfl
        | koreOr a b c => rfl
        | koreTop a => rfl
        | koreDv a b => rfl
        | koreApplies a b => rfl
        | cell a b => rfl
        | koreNestedCells a b => rfl
        | andP a b => rfl
        | topP => rfl
      · unfold construct_subst_axioms
        cases hh : deconstructHead q with
        | symbol n =>
          by_cases hmem : Pattern.symbol n ∈ t.functionalSymbols
          · simp [hmem, ih hq]
          · simp [hmem]
        | evar m => rfl
        | svar m => rfl
        | metavar m => rfl
        | app a b => rfl
        | implies a b => rfl
        | ex v b => rfl
        | mu v b => rfl
        | koreRewrites a b c => rfl
        | koreAnd a b c => rfl
        | koreOr a b c => rfl
        | koreTop a => rfl
        | koreDv a b => rfl
        | koreApplies a b => rfl
        | cell a b => rfl
        | koreNestedCells a b => rfl
        | andP a b => rfl
        | topP => rfl

/--
Witness for C3: a registered functional head (`kore_f` applied to an
element variable) yields the axiom; an unregistered head (`kore_g`) is
fatal.
-/
theorem c3_witness :
    construct_subst_axioms ⟨[], [], [], [.symbol "kore_f"], []⟩
        [.app (.symbol "kore_f") (.evar 1)] =
      some [⟨.FunctionalSymbol,
        .ex 0 (.andP (.implies (.evar 0) (.app (.symbol "kore_f") (.evar 1)))
          (.implies (.app (.symbol "kore_f") (.evar 1)) (.evar 0)))⟩] ∧
    construct_subst_axioms ⟨[], [], [], [.symbol "kore_f"], []⟩
        [.app (.symbol "kore_g") (.evar 1)] = none := by
  constructor
  · exact c3_functional_subst_guard.1 ⟨[], [], [], [.symbol "kore_f"], []⟩
      [.app (.symbol "kore_f") (.evar 1)]
      (by
        intro p hp
        simp at hp
        subst hp
        exact ⟨"kore_f", rfl, by decide⟩)
  · exact c3_functional_subst_guard.2 ⟨[], [], [], [.symbol "kore_f"], []⟩
      [.app (.symbol "kore_g") (.evar 1)] (.app (.symbol "kore_g") (.evar 1))
      (by simp)
      (by
        intro n hn hmem
        simp [deconstructHead] at hn
        subst hn
        simp at hmem)

theorem lookup_append_of_none {α β : Type} [DecidableEq α]
    (l1 l2 : List (α × β)) (a : α) (h : l1.lookup a = none) :
    (l1 ++ l2).lookup a = l2.lookup a := by
  induction l1 with
  | nil => rfl
  | cons x l1 ih =>
    simp only [List.lookup, List.cons_append] at h ⊢
    cases hx : (a == x.1) with
    | true => simp [hx] at h
    | false =>
      simp only [hx] at h ⊢
      exact ih h

/--
C8: axiom conversion is idempotent: a second conversion of the same raw
axiom is answered from the cache with the identical `ConvertedAxiom`
value and the identical converter state, so in particular the axiom
cache does not grow on the second call.
-/
theorem c8_converter_idempotence :
    ∀ (cst : ConverterState) (ax : KoreAxiom) (c : ConvertedAxiom) (cst1 : ConverterState),
      convertAxiom cst ax = some (c, cst1) →
      convertAxiom cst1 ax = some (c, cst1) ∧
      (convertAxiom cst1 ax).map (fun r => r.2.axiomsCache.length)
        = some cst1.axiomsCache.length := by
  intro cst ax c cst1 h
  have key : convertAxiom cst1 ax = some (c, cst1) := by
    unfold convertAxiom at h ⊢
    cases hl : cst.axiomsCache.lookup ax with
    | some cached =>
      simp only [hl] at h
      obtain ⟨hc, hst⟩ := Option.some.injEq _ _ ▸ h
      cases h
      simp [hl]
    | none =>
      simp only [hl] at h
      cases hpre : preprocessAx ax.pattern with
      | none => simp [hpre] at h
      | some typre =>
        obtain ⟨ty, pre⟩ := typre
        simp only [hpre] at h
        cases hcp : convert_pattern cst.tables pre with
        | none => simp [hcp] at h
        | some cpt1 =>
          obtain ⟨cp, t1⟩ := cpt1
          simp only [hcp] at h
          cases h
          have : (cst.axiomsCache ++ [(ax, (⟨ty, cp⟩ : ConvertedAxiom))]).lookup ax
              = some ⟨ty, cp⟩ := by
            rw [lookup_append_of_none _ _ _ hl]
            simp [List.lookup]
          simp [this]
  exact ⟨key, by simp [key]⟩

/--
Witness for C8 at a concrete axiom (`Top{S}()`) and the empty converter
state: the first conversion populates the cache, the second returns the
identical value and state.
-/
theorem c8_witness :
    convertAxiom
        ⟨⟨[("S", .symbol "kore_sort_S")], [], [], [], []⟩,
         [(⟨.topK "S"⟩, ⟨.Unclassified, .koreTop (.symbol "kore_sort_S")⟩)]⟩
        ⟨.topK "S"⟩
      = some (⟨.Unclassified, .koreTop (.symbol "kore_sort_S")⟩,
        ⟨⟨[("S", .symbol "kore_sort_S")], [], [], [], []⟩,
         [(⟨.topK "S"⟩, ⟨.Unclassified, .koreTop (.symbol "kore_sort_S")⟩)]⟩) ∧
    (convertAxiom
        ⟨⟨[("S", .symbol "kore_sort_S")], [], [], [], []⟩,
         [(⟨.topK "S"⟩, ⟨.Unclassified, .koreTop (.symbol "kore_sort_S")⟩)]⟩
        ⟨.topK "S"⟩).map (fun r => r.2.axiomsCache.length) = some 1 :=
  c8_converter_idempotence
    ⟨⟨[("S", .symbol "kore_sort_S")], [], [], [], []⟩,
     [(⟨.topK "S"⟩, ⟨.Unclassified, .koreTop (.symbol "kore_sort_S")⟩)]⟩
    ⟨.topK "S"⟩ ⟨.Unclassified, .koreTop (.symbol "kore_sort_S")⟩
    ⟨⟨[("S", .symbol "kore_sort_S")], [], [], [], []⟩,
     [(⟨.topK "S"⟩, ⟨.Unclassified, .koreTop (.symbol "kore_sort_S")⟩)]⟩
    (by simp [convertAxiom, List.lookup])


theorem organize_axioms_fold (axs : List ConvertedAxiom) :
    ∀ (acc : AxiomType → List ConvertedAxiom) (t : AxiomType),
      List.foldl
        (fun acc ax =>
          if ax ∈ acc ax.kind then acc
          else fun u => if u = ax.kind then acc ax.kind ++ [ax] else acc u)
        acc axs t
      = acc t ++ dedupFirstAux (acc t) (axs.filter fun a => a.kind == t) := by
  induction axs with
  | nil => intro acc t; simp [dedupFirstAux]
  | cons a axs ih =>
    intro acc t
    by_cases hmem : a ∈ acc a.kind <;> by_cases hk : a.kind = t
    · subst hk
      simp only [List.foldl_cons, if_pos hmem, List.filter_cons, beq_self_eq_true, if_true]
      rw [ih acc a.kind]
      simp [dedupFirstAux, hmem]
    · have hbt : (a.kind == t) = false := by simp [hk]
      simp only [List.foldl_cons, if_pos hmem, List.filter_cons, hbt, Bool.false_eq_true,
        if_false]
      exact ih acc t
    · subst hk
      simp only [List.foldl_cons, if_neg hmem, List.filter_cons, beq_self_eq_true, if_true]
      rw [ih (fun u => if u = a.kind then acc a.kind ++ [a] else acc u) a.kind]
      simp only [if_pos rfl]
      simp [dedupFirstAux, hmem]
    · have hbt : (a.kind == t) = false := by simp [hk]
      simp only [List.foldl_cons, if_neg hmem, List.filter_cons, hbt, Bool.false_eq_true,
        if_false]
      rw [ih (fun u => if u = a.kind then acc a.kind ++ [a] else acc u) t]
      have hacc : (if t = a.kind then acc a.kind ++ [a] else acc t) = acc t :=
        if_neg fun h => hk h.symm
      simp only [hacc]

/--
C7: organizing a list of converted axioms groups them by `AxiomType`;
within each group first-seen order is preserved and exact value-equal
duplicates are dropped (each group equals the input filtered to its
type, deduplicated keeping first occurrences).  In particular `[A, B, A]`
with `A ≠ B` yields `[A, B]` when both share a type, and the singleton
groups `[A]` and `[B]` otherwise.
-/
theorem c7_axiom_grouping :
    (∀ (axs : List ConvertedAxiom) (t : AxiomType),
        organize_axioms axs t = dedupFirst (axs.filter fun a => a.kind == t)) ∧
    (∀ A B : ConvertedAxiom, A ≠ B →
        (B.kind = A.kind → organize_axioms [A, B, A] A.kind = [A, B]) ∧
        (B.kind ≠ A.kind →
          organize_axioms [A, B, A] A.kind = [A] ∧
          organize_axioms [A, B, A] B.kind = [B])) := by
  have hgen : ∀ axs t, organize_axioms axs t = dedupFirst (axs.filter fun a => a.kind == t) := by
    intro axs t
    unfold organize_axioms dedupFirst
    rw [organize_axioms_fold]
    simp
  refine ⟨hgen, ?_⟩
  intro A B hAB
  have hBA : B ≠ A := Ne.symm hAB
  constructor
  · intro hk
    rw [hgen]
    simp [List.filter_cons, hk, dedupFirst, dedupFirstAux, hAB, hBA]
  · intro hk
    constructor
    · rw [hgen]
      have hbt : (B.kind == A.kind) = false := by simp [hk]
      simp [List.filter_cons, hbt, dedupFirst, dedupFirstAux]
    · rw [hgen]
      have hat : (A.kind == B.kind) = false := by
        simp
        intro h
        exact absurd h.symm hk
      simp [List.filter_cons, hat, dedupFirst, dedupFirstAux]

/--
Witness for C7 at concrete distinct axioms of equal and of unequal
types.
-/
theorem c7_witness :
    (organize_axioms
        [⟨.Unclassified, .topP⟩, ⟨.Unclassified, .svar 0⟩, ⟨.Unclassified, .topP⟩]
        AxiomType.Unclassified
      = [⟨.Unclassified, .topP⟩, ⟨.Unclassified, .svar 0⟩]) ∧
    (organize_axioms
        [⟨.Unclassified, .topP⟩, ⟨.RewriteRule, .topP⟩, ⟨.Unclassified, .topP⟩]
        AxiomType.Unclassified
      = [⟨.Unclassified, .topP⟩]) ∧
    (organize_axioms
        [⟨.Unclassified, .topP⟩, ⟨.RewriteRule, .topP⟩, ⟨.Unclassified, .topP⟩]
        AxiomType.RewriteRule
      = [⟨.RewriteRule, .topP⟩]) := by
  refine ⟨?_, ?_, ?_⟩
  · exact (c7_axiom_grouping.2 ⟨.Unclassified, .topP⟩ ⟨.Unclassified, .svar 0⟩
      (by decide)).1 rfl
  · exact ((c7_axiom_grouping.2 ⟨.Unclassified, .topP⟩ ⟨.RewriteRule, .topP⟩
      (by decide)).2 (by decide)).1
  · exact ((c7_axiom_grouping.2 ⟨.Unclassified, .topP⟩ ⟨.RewriteRule, .topP⟩
      (by decide)).2 (by decide)).2

/--
Counterexample to C5 as stated: the axiom `Rewrites{S}(Top{S}(), Top{S}())`
is not of the `Rewrites(sort, And(lhs, cond_l), And(rhs, cond_r))` shape,
so by the claim it should be classified `Unclassified` and converted
as-is — and converting its pattern as-is does succeed — yet
`_convert_axiom` fails fatally on it (the sides of a `Rewrites` are
asserted to be conjunctions before any classification of other shapes).
-/
theorem c5_counterexample :
    convertAxiom ⟨⟨[], [], [], [], []⟩, []⟩ ⟨.rewrites "S" (.topK "S") (.topK "S")⟩ = none ∧
    (convert_pattern ⟨[], [], [], [], []⟩ (.rewrites "S" (.topK "S") (.topK "S"))).map
        (fun r => r.1)
      = some (.koreRewrites (.symbol "kore_sort_S") (.koreTop (.symbol "kore_sort_S"))
          (.koreTop (.symbol "kore_sort_S"))) := by
  constructor
  · rfl
  · simp [convert_pattern.eq_def, resolve_symbol_sort, List.lookup]

theorem preprocess_rewrites_none (srt : String) (l r : KorePattern)
    (h : (∀ s1 ll lr, l ≠ .andK s1 ll lr) ∨ (∀ s2 rl rr, r ≠ .andK s2 rl rr)) :
    preprocessAx (.rewrites srt l r) = none := by
  unfold preprocessAx
  rcases h with h | h
  · cases l <;> cases r <;> first | rfl | exact absurd rfl (h _ _ _)
  · cases l <;> cases r <;> first | rfl | exact absurd rfl (h _ _ _)

theorem preprocess_not_rewrites (p : KorePattern)
    (h : ∀ srt l r, p ≠ .rewrites srt l r) :
    preprocessAx p = some (.Unclassified, p) := by
  cases p <;> first | rfl | exact absurd rfl (h _ _ _)

/--
C5 (amended): a fresh (uncached) axiom shaped
`Rewrites(sort, And(lhs, cond_l), And(rhs, cond_r))` is classified
`RewriteRule` and converted using only `lhs` and `rhs` (the
side-condition conjuncts are discarded); an axiom whose top node is not
`Rewrites` is classified `Unclassified` and converted as-is; but a
`Rewrites` whose left or right side is not a conjunction is a fatal
assertion, not `Unclassified`.
-/
theorem c5_axiom_classification :
    ∀ (cst : ConverterState) (ax : KoreAxiom),
      cst.axiomsCache.lookup ax = none →
      ((∀ (srt s1 s2 : String) (lhs condl rhs condr : KorePattern) (cp : Pattern)
          (t1 : SymbolTables),
          ax.pattern = .rewrites srt (.andK s1 lhs condl) (.andK s2 rhs condr) →
          convert_pattern cst.tables (.rewrites srt lhs rhs) = some (cp, t1) →
          convertAxiom cst ax =
            some (⟨.RewriteRule, cp⟩,
              ⟨t1, cst.axiomsCache ++ [(ax, ⟨.RewriteRule, cp⟩)]⟩)) ∧
       (∀ (srt : String) (l r : KorePattern),
          ax.pattern = .rewrites srt l r →
          ((∀ s1 ll lr, l ≠ .andK s1 ll lr) ∨ (∀ s2 rl rr, r ≠ .andK s2 rl rr)) →
          convertAxiom cst ax = none) ∧
       ((∀ srt l r, ax.pattern ≠ .rewrites srt l r) →
          ∀ (cp : Pattern) (t1 : SymbolTables),
          convert_pattern cst.tables ax.pattern = some (cp, t1) →
          convertAxiom cst ax =
            some (⟨.Unclassified, cp⟩,
              ⟨t1, cst.axiomsCache ++ [(ax, ⟨.Unclassified, cp⟩)]⟩))) := by
  intro cst ax hcache
  refine ⟨?_, ?_, ?_⟩
  · intro srt s1 s2 lhs condl rhs condr cp t1 hpat hconv
    unfold convertAxiom
    rw [hcache, hpat]
    simp only [preprocessAx]
    rw [hconv]
  · intro srt l r hpat h
    unfold convertAxiom
    rw [hcache, hpat, preprocess_rewrites_none srt l r h]
  · intro hnotrw cp t1 hconv
    unfold convertAxiom
    rw [hcache, preprocess_not_rewrites ax.pattern hnotrw]
    simp only []
    rw [hconv]

/--
Witness for C5: a conjunction-sided rewrite axiom over `Top{S}()` is
classified `RewriteRule` and converted from its stripped form, and a
plain `Top{S}()` axiom is classified `Unclassified` and converted as-is.
-/
theorem c5_witness :
    convertAxiom ⟨⟨[], [], [], [], []⟩, []⟩
        ⟨.rewrites "S" (.andK "S" (.topK "S") (.topK "S"))
          (.andK "S" (.topK "S") (.topK "S"))⟩
      = some (⟨.RewriteRule,
          .koreRewrites (.symbol "kore_sort_S") (.koreTop (.symbol "kore_sort_S"))
            (.koreTop (.symbol "kore_sort_S"))⟩,
        ⟨⟨[("S", .symbol "kore_sort_S")], [], [], [], []⟩,
         [(⟨.rewrites "S" (.andK "S" (.topK "S") (.topK "S"))
              (.andK "S" (.topK "S") (.topK "S"))⟩,
           ⟨.RewriteRule,
            .koreRewrites (.symbol "kore_sort_S") (.koreTop (.symbol "kore_sort_S"))
              (.koreTop (.symbol "kore_sort_S"))⟩)]⟩) ∧
    convertAxiom ⟨⟨[], [], [], [], []⟩, []⟩ ⟨.topK "S"⟩
      = some (⟨.Unclassified, .koreTop (.symbol "kore_sort_S")⟩,
        ⟨⟨[("S", .symbol "kore_sort_S")], [], [], [], []⟩,
         [(⟨.topK "S"⟩, ⟨.Unclassified, .koreTop (.symbol "kore_sort_S")⟩)]⟩) := by
  constructor
  · exact (c5_axiom_classification ⟨⟨[], [], [], [], []⟩, []⟩
      ⟨.rewrites "S" (.andK "S" (.topK "S") (.topK "S")) (.andK "S" (.topK "S") (.topK "S"))⟩
      rfl).1 "S" "S" "S" (.topK "S") (.topK "S") (.topK "S") (.topK "S")
      (.koreRewrites (.symbol "kore_sort_S") (.koreTop (.symbol "kore_sort_S"))
        (.koreTop (.symbol "kore_sort_S")))
      ⟨[("S", .symbol "kore_sort_S")], [], [], [], []⟩
      rfl
      (by simp [convert_pattern.eq_def, resolve_symbol_sort, List.lookup])
  · exact (c5_axiom_classification ⟨⟨[], [], [], [], []⟩, []⟩ ⟨.topK "S"⟩ rfl).2.2
      (by intro srt l r h; simp at h)
      (.koreTop (.symbol "kore_sort_S"))
      ⟨[("S", .symbol "kore_sort_S")], [], [], [], []⟩
      (by simp [convert_pattern.eq_def, resolve_symbol_sort, List.lookup])

/--
C6 (amended): for an application whose symbol is a recognized cell
symbol (which always matches the cell-name regex): with zero children it
converts to its own resolved head symbol (after registering the symbol);
with children it converts to the marker applied to the resolved head and
the chain of the *converted children* — the head is passed to the marker
separately, not chained with the children — using the nested-cells
marker exactly when some *converted child* is a plain-cell node (so a
zero-children cell child, which converts to a symbol, does not trigger
nesting), the plain cell marker otherwise; a nested-cells chain that is
not an application is a fatal assertion.
-/
theorem c6_cell_conversion :
    ∀ (t : SymbolTables) (sym name : String) (sorts : List String) (args : KorePattern),
      sym ∈ t.cellSymbols →
      cellNameOf sym = some name →
      ((args = .argsNil →
          convert_pattern t (.app sym sorts args) = some (cell_register t sym name)) ∧
       (∀ (children : List Pattern) (t2 : SymbolTables) (chained : Pattern),
          convert_cell_kids (cell_register t sym name).2 args = some (children, t2) →
          chainPatterns children = some chained →
          ((children.any isCellNode = false →
              convert_pattern t (.app sym sorts args) =
                some (.cell (cell_register t sym name).1 chained, t2)) ∧
           (∀ cl cr, chained = .app cl cr → children.any isCellNode = true →
              convert_pattern t (.app sym sorts args) =
                some (.koreNestedCells (cell_register t sym name).1 (.app cl cr), t2)) ∧
           ((∀ cl cr, chained ≠ .app cl cr) → children.any isCellNode = true →
              convert_pattern t (.app sym sorts args) = none)))) := by
  intro t sym name sorts args hmem hname
  have hcp : convert_pattern t (.app sym sorts args) = convert_cell t sym args := by
    rw [convert_pattern.eq_def]
    simp [hmem]
  constructor
  · intro hargs
    subst hargs
    rw [hcp, convert_cell.eq_def]
    simp [hname]
  · intro children t2 chained hkids hchain
    cases args with
    | argsCons c cs =>
      rw [convert_cell_kids.eq_def] at hkids
      simp only [] at hkids
      cases hc : convert_child (cell_register t sym name).2 c with
      | none => rw [hc] at hkids; simp at hkids
      | some pst =>
        obtain ⟨p, st2⟩ := pst
        rw [hc] at hkids
        replace hkids : (match convert_cell_kids st2 cs with
            | none => none
            | some (ps, st4) => some (p :: ps, st4)) = some (children, t2) := hkids
        cases hk2 : convert_cell_kids st2 cs with
        | none => rw [hk2] at hkids; simp at hkids
        | some psst =>
          obtain ⟨ps, st3⟩ := psst
          rw [hk2] at hkids
          simp only [Option.some.injEq, Prod.mk.injEq] at hkids
          obtain ⟨hch, ht2⟩ := hkids
          subst ht2
          subst hch
          have hbody : convert_pattern t (.app sym sorts (.argsCons c cs)) =
              (if (p :: ps).any isCellNode then
                match chained with
                | .app cl cr =>
                  some (.koreNestedCells (cell_register t sym name).1 (.app cl cr), st3)
                | _ => none
              else some (.cell (cell_register t sym name).1 chained, st3)) := by
            rw [hcp, convert_cell.eq_def]
            simp only [hname, hc, hk2, hchain]
          refine ⟨?_, ?_, ?_⟩
          · intro hany
            rw [hbody, if_neg]
            simp [hany]
          · intro cl cr hchap hany
            subst hchap
            rw [hbody, if_pos hany]
          · intro hnap hany
            rw [hbody, if_pos hany]
            cases chained with
            | app cl cr => exact absurd rfl (hnap cl cr)
            | symbol n => rfl
            | evar n => rfl
            | svar n => rfl
            | metavar n => rfl
            | implies a b => rfl
            | ex v b => rfl
            | mu v b => rfl
            | koreRewrites a b d => rfl
            | koreAnd a b d => rfl
            | koreOr a b d => rfl
            | koreTop a => rfl
            | koreDv a b => rfl
            | koreApplies a b => rfl
            | cell a b => rfl
            | koreNestedCells a b => rfl
            | andP a b => rfl
            | topP => rfl
    | argsNil =>
      rw [convert_cell_kids.eq_def] at hkids
      simp only [Option.some.injEq, Prod.mk.injEq] at hkids
      obtain ⟨hch, _⟩ := hkids
      subst hch
      simp [chainPatterns] at hchain
    | rewrites a b d =>
      rw [convert_cell_kids.eq_def] at hkids
      simp at hkids
    | andK a b d =>
      rw [convert_cell_kids.eq_def] at hkids
      simp at hkids
    | orK a b d =>
      rw [convert_cell_kids.eq_def] at hkids
      simp at hkids
    | app a b d =>
      rw [convert_cell_kids.eq_def] at hkids
      simp at hkids
    | evarK a b =>
      rw [convert_cell_kids.eq_def] at hkids
      simp at hkids
    | topK a =>
      rw [convert_cell_kids.eq_def] at hkids
      simp at hkids
    | dv a b =>
      rw [convert_cell_kids.eq_def] at hkids
      simp at hkids

/--
Witness for C6: the preset `generatedTop` cell with no children converts
to its resolved head symbol, registering the cell symbol.
-/
theorem c6_witness :
    convert_pattern ⟨[], [], [], [], ["Lbl'-LT-'generatedTop'-GT-'"]⟩
        (.app "Lbl'-LT-'generatedTop'-GT-'" [] .argsNil)
      = some (cell_register ⟨[], [], [], [], ["Lbl'-LT-'generatedTop'-GT-'"]⟩
          "Lbl'-LT-'generatedTop'-GT-'" "generatedTop") :=
  (c6_cell_conversion ⟨[], [], [], [], ["Lbl'-LT-'generatedTop'-GT-'"]⟩
    "Lbl'-LT-'generatedTop'-GT-'" "generatedTop" [] .argsNil
    (by decide) (by decide)).1 rfl

/--
Counterexample to C6 as stated: the recognized cell `Lbl'-LT-'t'-GT-'`
has a single child that is itself a cell (`Lbl'-LT-'k'-GT-'`, with zero
children), so by the claim the conversion should be wrapped in the
nested-cells marker; the code instead converts the child cell to the
bare symbol `kore_k` and, since no *converted* child is a plain-cell
node, wraps in the plain cell marker — and the head `kore_t` is passed
to the marker separately rather than chained with the children.
-/
theorem c6_counterexample :
    cellNameOf "Lbl'-LT-'k'-GT-'" = some "k" ∧
    (convert_pattern ⟨[], [], [], [], ["Lbl'-LT-'t'-GT-'"]⟩
        (.app "Lbl'-LT-'t'-GT-'" []
          (.argsCons (.app "Lbl'-LT-'k'-GT-'" [] .argsNil) .argsNil))).map (fun r => r.1)
      = some (.cell (.symbol "kore_t") (.symbol "kore_k")) := by
  have hk : cellNameOf "Lbl'-LT-'k'-GT-'" = some "k" := by decide
  have ht : cellNameOf "Lbl'-LT-'t'-GT-'" = some "t" := by decide
  refine ⟨hk, ?_⟩
  have hm : "Lbl'-LT-'t'-GT-'" ∈
      (⟨[], [], [], [], ["Lbl'-LT-'t'-GT-'"]⟩ : SymbolTables).cellSymbols := by decide
  simp [convert_pattern.eq_def, convert_cell.eq_def, convert_child.eq_def,
    convert_cell_kids.eq_def, cell_register, resolve_symbol_str, insertUnique,
    chainPatterns, isCellNode, hk, ht, hm, List.lookup]
